import Mathlib

/-!
Verification development for the image-optimizer core: a shallow embedding of
the single-image size-targeting search (`optimizeImage`), the batch
orchestrator (`batchOptimize`), and the CLI output-path computation, with the
encoder adapter abstracted as a deterministic function from encode parameters
to the resulting byte size.
-/

set_option maxRecDepth 4000

/-! ## Path plumbing (POSIX-style, as used by the Node `path` module) -/

/-- Split a character list at every occurrence of a separator (the components
keep their order; an empty input yields one empty component, matching
`"".split(sep)`). -/
def splitChars (sep : Char) : List Char → List (List Char)
  | [] => [[]]
  | c :: cs =>
    let r := splitChars sep cs
    if c = sep then [] :: r
    else
      match r with
      | [] => [[c]]
      | h :: ts => (c :: h) :: ts

/-- Last path component, as `path.basename` on POSIX paths. -/
def basename (p : String) : String :=
  String.mk ((splitChars '/' p.data).getLastD p.data)

/-- Everything before the last separator, as `path.dirname` for the
concrete absolute paths exercised here. -/
def dirname (p : String) : String :=
  String.mk (List.intercalate ['/'] ((splitChars '/' p.data).dropLast))

/-- Join a directory and a relative name, as `path.join dir name`. -/
def pathJoin (d name : String) : String :=
  d ++ "/" ++ name

/-- Extension of the basename from its last dot, as `path.extname`
(dotfiles with no further dot have no extension). -/
def extname (p : String) : String :=
  match splitChars '.' (basename p).data with
  | [] => ""
  | [_] => ""
  | [[], _] => ""
  | parts => String.mk ('.' :: parts.getLastD [])

/-- ASCII lower-casing of one character, as `toLowerCase` does on the
extensions handled here. -/
def lowerChar (c : Char) : Char :=
  if 'A' ≤ c ∧ c ≤ 'Z' then Char.ofNat (c.toNat + 32) else c

/-- ASCII lower-casing, as `ext.toLowerCase()` on extensions. -/
def lowerString (s : String) : String :=
  String.mk (s.data.map lowerChar)

/-! ## Formats and encoder parameters -/

inductive Format
  | png
  | jpeg
deriving DecidableEq, Repr

/-- Extension dispatch used by the encode branches: `.png` encodes as PNG,
`.jpg`/`.jpeg` as JPEG, anything else is unsupported there. -/
def fmtOfExt : String → Option Format
  | ".png" => some Format.png
  | ".jpg" => some Format.jpeg
  | ".jpeg" => some Format.jpeg
  | _ => none

/-- Format chosen by the fallback / re-encode / aggressive branches, which
test only `ext === ".png"` and otherwise take the JPEG branch. -/
def fallbackFmt (ext : String) : Format :=
  if ext = ".png" then Format.png else Format.jpeg

/-- One encoder-adapter invocation's parameters. PNG invocations always carry
`compressionLevel 9`, `effort 10`, `palette true` and JPEG ones `mozjpeg true`
at every call site, so those constants are left implicit; the fields that vary
are the quality and the aggressive JPEG settings (4:2:0 chroma subsampling and
metadata stripping), used only in the aggressive-fallback phase. -/
structure EncodeParams where
  fmt : Format
  quality : Int
  chroma420 : Bool
  stripMeta : Bool
deriving DecidableEq, Repr

/-- Parameters of a normal (search / fallback / re-encode) invocation. -/
def normalParams (fmt : Format) (q : Int) : EncodeParams :=
  ⟨fmt, q, false, false⟩

/-- Parameters of an aggressive-fallback invocation: JPEG adds 4:2:0 chroma
subsampling and strips metadata; PNG uses the same settings as always. -/
def aggressiveParams (fmt : Format) (q : Int) : EncodeParams :=
  match fmt with
  | Format.png => ⟨Format.png, q, false, false⟩
  | Format.jpeg => ⟨Format.jpeg, q, true, true⟩

/-- The encoder adapter, abstracted as a deterministic map from parameters to
the byte size of the encoded output it writes. -/
abbrev Encoder := EncodeParams → Nat

/-! ## Options and results -/

/-- The options object of `optimizeImage` with its destructuring defaults. -/
structure Options where
  minQuality : Int
  maxQuality : Int
  maxIterations : Nat
  safetyMargin : Int
deriving DecidableEq, Repr

def defaultOptions : Options := ⟨85, 95, 20, 1024⟩

/-- The result record returned by `optimizeImage` (the derived
`savingsPercent` display string is omitted). -/
structure OptResult where
  success : Bool
  originalSize : Nat
  optimizedSize : Nat
  quality : Int
  iterations : Nat
  savings : Int
  underTarget : Bool
deriving DecidableEq, Repr

/-- What the bytes at the output path are when the call returns: a verbatim
copy of the source, or the output of one encoder invocation. -/
inductive OutputContent
  | original
  | encoded (p : EncodeParams)
deriving DecidableEq, Repr

/-- Observable outcome of one successful `optimizeImage` call: the result
record, the final content of the output path, and the log of encoder
invocations split into the binary-search phase (`binLog`) and everything
else (`otherLog`: quality-only encode, fallback, re-encode, aggressive
attempts, in order). -/
structure OptOutcome where
  result : OptResult
  output : OutputContent
  binLog : List EncodeParams
  otherLog : List EncodeParams
deriving DecidableEq, Repr

inductive OptError
  | unsupported (inputPath ext : String)
deriving DecidableEq, Repr

def OptError.message : OptError → String
  | OptError.unsupported p ext =>
      "Failed to optimize " ++ p ++ ": Unsupported file format: " ++ ext

/-! ## Binary-search phase -/

/-- Mutable state of the binary search: bounds, the `quality` variable, the
best acceptable quality seen with its size (`none` standing for the initial
`Infinity`), and the qualities sampled so far in order. -/
structure SearchState where
  low : Int
  high : Int
  quality : Int
  bestQuality : Int
  bestSize : Option Nat
  trace : List Int
deriving DecidableEq, Repr

/-- Initial search state: `low = minQuality`, `high = maxQuality`,
`quality = maxQuality`, `bestQuality = quality`, `bestSize = Infinity`. -/
def initSearch (minQ maxQ : Int) : SearchState :=
  ⟨minQ, maxQ, maxQ, maxQ, none, []⟩

/-- The `while (low <= high && iterations < maxIterations)` loop; the fuel is
the number of iterations still allowed, and `encQ q` is the size produced by
a normal encode at quality `q`. `Int.fdiv` is `Math.floor` division. -/
def searchLoop (encQ : Int → Nat) (adjustedTarget : Int) :
    Nat → SearchState → SearchState
  | 0, s => s
  | fuel + 1, s =>
    if s.low ≤ s.high then
      let q := (s.low + s.high).fdiv 2
      let currentSize := encQ q
      let s' :=
        if (currentSize : Int) ≤ adjustedTarget then
          { s with quality := q, bestQuality := q, bestSize := some currentSize,
                   low := q + 1, trace := s.trace ++ [q] }
        else
          { s with quality := q, high := q - 1, trace := s.trace ++ [q] }
      searchLoop encQ adjustedTarget fuel s'
    else s

/-! ## Aggressive-fallback phase -/

/-- Outcome of the aggressive-fallback loop: the final `optimizedSize`, the
qualities attempted in order, the assignment to the `quality` variable made on
a successful break, and the parameters of the last write it performed. -/
structure AggOut where
  size : Nat
  trace : List Int
  qSet : Option Int
  written : Option EncodeParams
deriving DecidableEq, Repr

/-- The body of the `while (aggressiveQuality >= 1 && optimizedSize >
targetSize)` loop, recursing structurally on a fuel so that it computes by
kernel reduction; the fuel is a termination artifact only: each pass requires
`1 ≤ q` and lowers `q` by 2, so a fuel of `q.toNat` is never exhausted before
the guard stops the loop, and running out of fuel returns exactly what the
guard-false exit returns. -/
def aggressiveLoopAux (enc : Encoder) (fmt : Format) (targetSize : Int) :
    Nat → Int → Nat → AggOut
  | 0, _, cur => ⟨cur, [], none, none⟩
  | fuel + 1, q, cur =>
    if 1 ≤ q ∧ targetSize < (cur : Int) then
      let p := aggressiveParams fmt q
      let sz := enc p
      if (sz : Int) ≤ targetSize then
        ⟨sz, [q], some q, some p⟩
      else
        let r := aggressiveLoopAux enc fmt targetSize fuel (q - 2) sz
        ⟨r.size, q :: r.trace, r.qSet, some (r.written.getD p)⟩
    else
      ⟨cur, [], none, none⟩

/-- The aggressive-fallback loop, starting from quality `q` with `cur` bytes
currently at the output path; each pass encodes with the aggressive settings,
breaks when at or under target (recording the quality), else decrements the
quality by 2. -/
def aggressiveLoop (enc : Encoder) (fmt : Format) (targetSize : Int)
    (q : Int) (cur : Nat) : AggOut :=
  aggressiveLoopAux enc fmt targetSize q.toNat q cur

/-! ## Single-image optimizer -/

/-- State of the binary search when the loop finishes: the loop runs over the
detected format's normal encodes; with an undetected format it performs no
pass (the reachable such case, `minQuality > maxQuality` or
`maxIterations = 0`, never enters the body). -/
def sizeSearchState (enc : Encoder) (ext : String) (adjustedTarget : Int)
    (opts : Options) : SearchState :=
  match fmtOfExt ext with
  | some fmt =>
      searchLoop (fun q => enc (normalParams fmt q)) adjustedTarget
        opts.maxIterations (initSearch opts.minQuality opts.maxQuality)
  | none => initSearch opts.minQuality opts.maxQuality

/-- Steps 2-5 of the size-targeting mode, after the short-circuit and the
unsupported-format throw have been ruled out: binary search, final-bytes
resolution, aggressive fallback, and the result record. -/
def sizeSearchOutcome (enc : Encoder) (ext : String) (originalSize : Nat)
    (t : Int) (opts : Options) : OptOutcome :=
  let adjustedTarget := t - opts.safetyMargin
  let fbFmt := fallbackFmt ext
  let s := sizeSearchState enc ext adjustedTarget opts
  -- content left at the output path by the loop, if any pass ran
  let loopWritten : Option EncodeParams :=
    s.trace.getLast?.map (fun q => normalParams fbFmt q)
  let noBest : Bool :=
    match s.bestSize with
    | none => true
    | some b => decide (adjustedTarget < (b : Int))
  -- step 3: resolve final bytes (fallback floor quality, or re-encode at best)
  let step3 : Option EncodeParams × List EncodeParams × Int :=
    if noBest then
      let q := max 10 opts.minQuality
      let p := normalParams fbFmt q
      (some p, [p], q)
    else if s.bestQuality ≠ s.quality then
      let p := normalParams fbFmt s.bestQuality
      (some p, [p], s.quality)
    else
      (loopWritten, [], s.quality)
  let written1 := step3.1
  let optimizedSize1 : Nat :=
    match written1 with
    | some p => enc p
    | none => originalSize
  -- step 4: aggressive fallback when still over the unmargined target
  let agg : AggOut :=
    if t < (optimizedSize1 : Int) then
      aggressiveLoop enc fbFmt t (max 1 (opts.minQuality - 5)) optimizedSize1
    else
      ⟨optimizedSize1, [], none, none⟩
  let written2 : Option EncodeParams :=
    match agg.written with
    | some p => some p
    | none => written1
  let qualityVar : Int := agg.qSet.getD step3.2.2
  -- the returned quality is bestQuality || quality
  let reportedQuality : Int :=
    if s.bestQuality = (0 : Int) then qualityVar else s.bestQuality
  { result :=
      { success := decide ((agg.size : Int) ≤ t), originalSize,
        optimizedSize := agg.size, quality := reportedQuality,
        iterations := s.trace.length,
        savings := (originalSize : Int) - (agg.size : Int),
        underTarget := decide ((agg.size : Int) ≤ t) }
    output :=
      match written2 with
      | some p => OutputContent.encoded p
      | none => OutputContent.original
    binLog := s.trace.map (fun q => normalParams fbFmt q)
    otherLog := step3.2.1 ++ agg.trace.map (aggressiveParams fbFmt) }

/-- Shallow embedding of `optimizeImage(inputPath, outputPath, targetSize,
options)`. The filesystem is abstracted away: `originalSize` is the result of
the initial `fs.stat`, the encoder `enc` stands for the sharp pipeline plus
the `fs.stat` of what it wrote, and the returned `OptOutcome` records what
ends up at the output path together with the encode log. An unsupported
extension throws on the first pass of the binary search, which is modelled by
the equivalent up-front guard (the loop runs at least one pass exactly when
`minQuality ≤ maxQuality` and `maxIterations > 0`). -/
def optimizeImage (enc : Encoder) (inputPath : String) (originalSize : Nat)
    (targetSize : Option Int) (opts : Options) : Except OptError OptOutcome :=
  let ext := lowerString (extname inputPath)
  match targetSize with
  | none =>
    -- quality-based optimization: a single encode at maxQuality
    match fmtOfExt ext with
    | none => Except.error (OptError.unsupported inputPath ext)
    | some fmt =>
      let p := normalParams fmt opts.maxQuality
      let optimizedSize := enc p
      Except.ok
        { result :=
            { success := true, originalSize, optimizedSize,
              quality := opts.maxQuality, iterations := 1,
              savings := (originalSize : Int) - (optimizedSize : Int),
              underTarget := true }
          output := OutputContent.encoded p
          binLog := []
          otherLog := [p] }
  | some t =>
    -- size-based optimization
    if (originalSize : Int) ≤ t - opts.safetyMargin then
      -- already under the adjusted target: copy the file
      Except.ok
        { result :=
            { success := true, originalSize, optimizedSize := originalSize,
              quality := 100, iterations := 0, savings := 0,
              underTarget := true }
          output := OutputContent.original
          binLog := []
          otherLog := [] }
    else if fmtOfExt ext = none ∧ opts.minQuality ≤ opts.maxQuality ∧
        0 < opts.maxIterations then
      -- the first pass of the binary search hits the unsupported-format throw
      Except.error (OptError.unsupported inputPath ext)
    else
      Except.ok (sizeSearchOutcome enc ext originalSize t opts)

/-! ## Batch orchestrator -/

/-- Per-path view of the filesystem and codec: the source file's byte size and
its encoder adapter. -/
structure FileModel where
  size : Nat
  enc : Encoder

/-- The output directory's contents: for each path, which input's optimization
wrote the bytes currently there, and what they are. -/
abbrev Store := String → Option (String × OutputContent)

def emptyStore : Store := fun _ => none

def storeWrite (st : Store) (p writer : String) (c : OutputContent) : Store :=
  fun q => if q = p then some (writer, c) else st q

/-- One entry of the list returned by `batchOptimize`: the result record
spread together with filename and paths, or the per-file error entry. -/
structure BatchRecord where
  filename : String
  inputPath : String
  outputPath : String
  success : Bool
  error : Option String
  res : Option OptResult
deriving DecidableEq, Repr

/-- The record `batchOptimize` pushes for one input. -/
def perFileRecord (env : String → FileModel) (outputDir : String)
    (targetSize : Option Int) (opts : Options) (inputPath : String) :
    BatchRecord :=
  let filename := basename inputPath
  let outputPath := pathJoin outputDir filename
  match optimizeImage (env inputPath).enc inputPath (env inputPath).size
      targetSize opts with
  | Except.ok o =>
      ⟨filename, inputPath, outputPath, o.result.success, none, some o.result⟩
  | Except.error e =>
      ⟨filename, inputPath, outputPath, false, some e.message, none⟩

/-- The `for (const inputPath of inputPaths)` loop of `batchOptimize`,
threading the output directory contents; a failed file writes nothing (its
error precedes any write) and processing continues with the rest. -/
def batchOptimizeGo (env : String → FileModel) (outputDir : String)
    (targetSize : Option Int) (opts : Options) :
    List String → Store → List BatchRecord × Store
  | [], st => ([], st)
  | inputPath :: rest, st =>
    let filename := basename inputPath
    let outputPath := pathJoin outputDir filename
    match optimizeImage (env inputPath).enc inputPath (env inputPath).size
        targetSize opts with
    | Except.ok o =>
      let st1 := storeWrite st outputPath inputPath o.output
      let next := batchOptimizeGo env outputDir targetSize opts rest st1
      (⟨filename, inputPath, outputPath, o.result.success, none,
          some o.result⟩ :: next.1, next.2)
    | Except.error e =>
      let next := batchOptimizeGo env outputDir targetSize opts rest st
      (⟨filename, inputPath, outputPath, false, some e.message, none⟩
          :: next.1, next.2)

/-- Result records of `batchOptimize(inputPaths, outputDir, targetSize,
options)`, in input order. -/
def batchOptimize (env : String → FileModel) (inputs : List String)
    (outputDir : String) (targetSize : Option Int) (opts : Options) :
    List BatchRecord :=
  (batchOptimizeGo env outputDir targetSize opts inputs emptyStore).1

/-- Contents of the output directory after the whole batch. -/
def batchFinalStore (env : String → FileModel) (inputs : List String)
    (outputDir : String) (targetSize : Option Int) (opts : Options) : Store :=
  (batchOptimizeGo env outputDir targetSize opts inputs emptyStore).2

/-! ## CLI output-directory computation (in-place mode) -/

/-- The CLI's output-directory choice: `null` in in-place mode, the
`optimized` sibling folder for the default option, else the user's directory
(`path.resolve` is modelled as the identity on absolute paths). -/
def cliOutputDir (inPlace : Bool) (outputOpt : String)
    (inputPaths : List String) : Option String :=
  if inPlace then none
  else if outputOpt = "./optimized" then
    some (pathJoin (dirname (inputPaths.headD "")) "optimized")
  else some outputOpt

/-- The directory actually passed to `batchOptimize`:
`outputDir || path.dirname(inputPaths[0])`. -/
def cliBatchOutputDir (inPlace : Bool) (outputOpt : String)
    (inputPaths : List String) : String :=
  (cliOutputDir inPlace outputOpt inputPaths).getD
    (dirname (inputPaths.headD ""))

/-! ## Concrete instances used by counterexamples and witnesses -/

/-- Encoder double for the quality-drift scenario: every normal encode is
60000 bytes, every aggressive (chroma-subsampled) encode is 40000 bytes. -/
def encDrift : Encoder := fun p => if p.chroma420 then 40000 else 60000

def optsDrift : Options := ⟨10, 95, 20, 1024⟩

/-- Constant encoder: every encode is 0 bytes (trivially monotone). -/
def encConst : Int → Nat := fun _ => 0

/-- Monotone encoder double: an encode at quality q is max(q,0) bytes. -/
def encMono : Int → Nat := fun q => q.toNat

/-- Encoder double that never reaches any target. -/
def encBig : Encoder := fun _ => 100000

def envC9 : String → FileModel := fun _ => ⟨500000, encBig⟩

/-- Batch environment: every file is too large to short-circuit and every
encode is tiny, so supported files succeed and unsupported ones throw. -/
def envCollide : String → FileModel := fun _ => ⟨999999, fun _ => 0⟩

/-- Outcome of the size search for one of the colliding inputs. -/
def oCollide : OptOutcome :=
  sizeSearchOutcome (fun _ => 0) ".png" 999999 100000 defaultOptions

/-! ## Search invariant predicates -/

/-- Loop invariant of the binary search: bounds shrink inside
the initial quality interval, every sampled quality lies in it, and the best
record is exactly the largest satisfying sampled quality so far (sitting just
below the lower bound), while no sample satisfied the target as long as the
best record is still unset. -/
def SearchInv (encQ : Int → Nat) (adjT minQ maxQ : Int) (s : SearchState) :
    Prop :=
  s.low ≤ s.high + 1 ∧
  minQ ≤ s.low ∧
  s.high ≤ maxQ ∧
  (∀ q ∈ s.trace, minQ ≤ q ∧ q ≤ maxQ) ∧
  (s.bestSize = none → ∀ q ∈ s.trace, adjT < (encQ q : Int)) ∧
  (∀ b, s.bestSize = some b →
    b = encQ s.bestQuality ∧ (encQ s.bestQuality : Int) ≤ adjT ∧
    s.bestQuality ∈ s.trace ∧ s.bestQuality = s.low - 1 ∧
    ∀ q ∈ s.trace, (encQ q : Int) ≤ adjT → q ≤ s.bestQuality)

/-- Under a size-vs-quality monotone encoder, every quality above the current
upper bound (within the initial interval) has been ruled out. -/
def HighInv (encQ : Int → Nat) (adjT maxQ : Int) (s : SearchState) : Prop :=
  ∀ q : Int, s.high < q → q ≤ maxQ → adjT < (encQ q : Int)

/-! ## Binary-search invariants -/

/-- Floor-midpoint bounds: the sampled quality stays within the bounds. -/
lemma fdiv2_bounds (a b : Int) (h : a ≤ b) :
    a ≤ (a + b).fdiv 2 ∧ (a + b).fdiv 2 ≤ b := by
  rw [Int.fdiv_eq_ediv _ (by omega : (0 : Int) ≤ 2)]
  omega

lemma searchLoop_inv (encQ : Int → Nat) (adjT minQ maxQ : Int) :
    ∀ (fuel : Nat) (s : SearchState), SearchInv encQ adjT minQ maxQ s →
      SearchInv encQ adjT minQ maxQ (searchLoop encQ adjT fuel s) := by
  intro fuel
  induction fuel with
  | zero => intro s hs; simpa [searchLoop] using hs
  | succ n ih =>
    intro s hs
    obtain ⟨h1, h2, h3, h4, h5, h6⟩ := hs
    simp only [searchLoop]
    by_cases hlh : s.low ≤ s.high
    · rw [if_pos hlh]
      obtain ⟨hm1, hm2⟩ := fdiv2_bounds s.low s.high hlh
      by_cases hsat : ((encQ ((s.low + s.high).fdiv 2) : Int) ≤ adjT)
      · rw [if_pos hsat]
        apply ih
        refine ⟨by dsimp; omega, by dsimp; omega, by dsimp; exact h3, ?_, ?_, ?_⟩
        · intro q hq
          rcases List.mem_append.mp hq with hq | hq
          · exact h4 q hq
          · have : q = (s.low + s.high).fdiv 2 := List.mem_singleton.mp hq
            subst this; omega
        · intro hcontra; exact absurd hcontra (by simp)
        · intro b hb
          have hb' : b = encQ ((s.low + s.high).fdiv 2) := by
            have := hb
            simp at this
            omega
          subst hb'
          refine ⟨rfl, hsat, by simp, by dsimp; ring, ?_⟩
          intro q hq hqsat
          rcases List.mem_append.mp hq with hq | hq
          · rcases hbest : s.bestSize with _ | b0
            · exact absurd hqsat (not_le.mpr (h5 hbest q hq))
            · have := (h6 b0 hbest).2.2.2
              have hle := this.2 q hq hqsat
              dsimp
              omega
          · have : q = (s.low + s.high).fdiv 2 := List.mem_singleton.mp hq
            subst this; exact le_refl _
      · rw [if_neg hsat]
        apply ih
        refine ⟨by dsimp; omega, by dsimp; omega, by dsimp; omega, ?_, ?_, ?_⟩
        · intro q hq
          rcases List.mem_append.mp hq with hq | hq
          · exact h4 q hq
          · have : q = (s.low + s.high).fdiv 2 := List.mem_singleton.mp hq
            subst this; omega
        · intro hnone q hq
          rcases List.mem_append.mp hq with hq | hq
          · exact h5 hnone q hq
          · have : q = (s.low + s.high).fdiv 2 := List.mem_singleton.mp hq
            subst this; omega
        · intro b hb
          obtain ⟨hb1, hb2, hb3, hb4, hb5⟩ := h6 b hb
          refine ⟨hb1, hb2, List.mem_append_left _ hb3, hb4, ?_⟩
          intro q hq hqsat
          rcases List.mem_append.mp hq with hq | hq
          · exact hb5 q hq hqsat
          · have : q = (s.low + s.high).fdiv 2 := List.mem_singleton.mp hq
            subst this; exact absurd hqsat hsat
    · rw [if_neg hlh]
      exact ⟨h1, h2, h3, h4, h5, h6⟩

lemma initSearch_inv (encQ : Int → Nat) (adjT minQ maxQ : Int)
    (h : minQ ≤ maxQ + 1) :
    SearchInv encQ adjT minQ maxQ (initSearch minQ maxQ) := by
  refine ⟨h, le_refl _, le_refl _, ?_, ?_, ?_⟩
  · intro q hq; exact absurd hq (List.not_mem_nil q)
  · intro _ q hq; exact absurd hq (List.not_mem_nil q)
  · intro b hb; exact absurd hb (by simp [initSearch])

lemma searchLoop_high_inv (encQ : Int → Nat) (adjT maxQ : Int)
    (hmono : ∀ a b : Int, a ≤ b → encQ a ≤ encQ b) :
    ∀ (fuel : Nat) (s : SearchState), HighInv encQ adjT maxQ s →
      HighInv encQ adjT maxQ (searchLoop encQ adjT fuel s) := by
  intro fuel
  induction fuel with
  | zero => intro s hs; simpa [searchLoop] using hs
  | succ n ih =>
    intro s hs
    simp only [searchLoop]
    by_cases hlh : s.low ≤ s.high
    · rw [if_pos hlh]
      by_cases hsat : ((encQ ((s.low + s.high).fdiv 2) : Int) ≤ adjT)
      · rw [if_pos hsat]
        exact ih _ (fun q hq hq' => hs q hq hq')
      · rw [if_neg hsat]
        apply ih
        intro q hq hq'
        dsimp at hq
        by_cases hcmp : (s.low + s.high).fdiv 2 ≤ q
        · have := hmono _ _ hcmp
          omega
        · exact hs q (by omega) hq'
    · rw [if_neg hlh]
      exact hs

lemma initSearch_high_inv (encQ : Int → Nat) (adjT minQ maxQ : Int) :
    HighInv encQ adjT maxQ (initSearch minQ maxQ) := by
  intro q hq hq'
  exact absurd hq (by simp [initSearch]; omega)

lemma searchLoop_trace_len (encQ : Int → Nat) (adjT : Int) :
    ∀ (fuel : Nat) (s : SearchState),
      (searchLoop encQ adjT fuel s).trace.length ≤ s.trace.length + fuel := by
  intro fuel
  induction fuel with
  | zero => intro s; simp [searchLoop]
  | succ n ih =>
    intro s
    simp only [searchLoop]
    by_cases hlh : s.low ≤ s.high
    · rw [if_pos hlh]
      by_cases hsat : ((encQ ((s.low + s.high).fdiv 2) : Int) ≤ adjT)
      · rw [if_pos hsat]
        refine le_trans (ih _) ?_
        simp
        omega
      · rw [if_neg hsat]
        refine le_trans (ih _) ?_
        simp
        omega
    · rw [if_neg hlh]
      omega

/-! ## Aggressive-loop specification -/

/-- Exhausted guard: whatever the fuel, a loop entry whose guard fails
returns the current size with no attempts. -/
lemma aggressiveLoopAux_stop (enc : Encoder) (fmt : Format) (t q : Int)
    (cur : Nat) (h : ¬(1 ≤ q ∧ t < (cur : Int))) :
    ∀ n, aggressiveLoopAux enc fmt t n q cur = ⟨cur, [], none, none⟩ := by
  intro n
  cases n with
  | zero => rfl
  | succ n => simp only [aggressiveLoopAux]; rw [if_neg h]

/-- Behaviour of the aggressive-fallback loop when it is entered: the first
attempted quality is the starting one, each further attempt is exactly 2
lower, all attempts are at least 1, every non-final attempt was still over
target, the final attempt either reached the target or had no room left to
decrement, and the number of attempts is bounded. -/
lemma aggressiveLoopAux_spec (enc : Encoder) (fmt : Format) (t : Int) :
    ∀ (n : Nat) (q : Int) (cur : Nat), q.toNat ≤ n → 1 ≤ q → t < (cur : Int) →
      (aggressiveLoopAux enc fmt t n q cur).trace.head? = some q ∧
      List.Chain' (fun a b => b = a - 2)
        (aggressiveLoopAux enc fmt t n q cur).trace ∧
      (aggressiveLoopAux enc fmt t n q cur).trace.length ≤ q.toNat / 2 + 1 ∧
      (∀ a ∈ (aggressiveLoopAux enc fmt t n q cur).trace, 1 ≤ a) ∧
      (∀ a ∈ (aggressiveLoopAux enc fmt t n q cur).trace.dropLast,
        t < (enc (aggressiveParams fmt a) : Int)) ∧
      (∀ l, (aggressiveLoopAux enc fmt t n q cur).trace.getLast? = some l →
        ((enc (aggressiveParams fmt l) : Int) ≤ t ∨ l - 2 < 1)) := by
  intro n
  induction n with
  | zero => intro q cur hn h1 h2; omega
  | succ n ih =>
    intro q cur hn h1 h2
    simp only [aggressiveLoopAux]
    rw [if_pos ⟨h1, h2⟩]
    by_cases hsz : ((enc (aggressiveParams fmt q) : Int) ≤ t)
    · rw [if_pos hsz]
      refine ⟨rfl, by simp, by simp, ?_, by simp, ?_⟩
      · intro a ha
        have : a = q := by simpa using ha
        omega
      · intro l hl
        have hlq : q = l := by simpa using hl
        subst hlq
        exact Or.inl hsz
    · rw [if_neg hsz]
      by_cases hq2 : 1 ≤ q - 2
      · obtain ⟨ihh, ihc, ihlen, ihone, ihdrop, ihlast⟩ :=
          ih (q - 2) (enc (aggressiveParams fmt q)) (by omega) hq2 (by omega)
        set r := aggressiveLoopAux enc fmt t n (q - 2)
          (enc (aggressiveParams fmt q)) with hr
        obtain ⟨x, xs, hxs⟩ : ∃ x xs, r.trace = x :: xs := by
          rcases htr : r.trace with _ | ⟨x, xs⟩
          · rw [htr] at ihh; exact absurd ihh (by simp)
          · exact ⟨x, xs, rfl⟩
        have hx : x = q - 2 := by
          rw [hxs] at ihh; simpa using ihh
        refine ⟨rfl, ?_, ?_, ?_, ?_, ?_⟩
        · rw [List.chain'_cons']
          refine ⟨?_, ihc⟩
          intro y hy
          rw [hxs] at hy
          simp at hy
          omega
        · simp only [List.length_cons]
          omega
        · intro a ha
          simp at ha
          rcases ha with ha | ha
          · omega
          · exact ihone a ha
        · intro a ha
          dsimp only at ha
          rw [hxs, List.dropLast_cons₂] at ha
          rcases List.mem_cons.mp ha with ha | ha
          · subst ha; omega
          · exact ihdrop a (by rw [hxs]; exact ha)
        · intro l hl
          dsimp only at hl
          rw [hxs, List.getLast?_cons_cons] at hl
          apply ihlast
          rw [hxs]
          exact hl
      · rw [aggressiveLoopAux_stop enc fmt t (q - 2)
          (enc (aggressiveParams fmt q)) (by omega) n]
        refine ⟨rfl, by simp, by simp, ?_, by simp, ?_⟩
        · intro a ha
          have : a = q := by simpa using ha
          omega
        · intro l hl
          have hlq : q = l := by simpa using hl
          subst hlq
          exact Or.inr (by omega)

/-- The wrapper's fuel, the starting quality itself, is sufficient. -/
lemma aggressiveLoop_spec (enc : Encoder) (fmt : Format) (t : Int)
    (q : Int) (cur : Nat) (h1 : 1 ≤ q) (h2 : t < (cur : Int)) :
    (aggressiveLoop enc fmt t q cur).trace.head? = some q ∧
    List.Chain' (fun a b => b = a - 2) (aggressiveLoop enc fmt t q cur).trace ∧
    (aggressiveLoop enc fmt t q cur).trace.length ≤ q.toNat / 2 + 1 ∧
    (∀ a ∈ (aggressiveLoop enc fmt t q cur).trace, 1 ≤ a) ∧
    (∀ a ∈ (aggressiveLoop enc fmt t q cur).trace.dropLast,
      t < (enc (aggressiveParams fmt a) : Int)) ∧
    (∀ l, (aggressiveLoop enc fmt t q cur).trace.getLast? = some l →
      ((enc (aggressiveParams fmt l) : Int) ≤ t ∨ l - 2 < 1)) :=
  aggressiveLoopAux_spec enc fmt t q.toNat q cur (le_refl _) h1 h2

/-! ## Batch lemmas -/

/-- The records pushed by the batch loop are exactly one per input, in input
order, and each depends only on its own input (the store threading never
influences them). -/
lemma batchOptimizeGo_records (env : String → FileModel) (outputDir : String)
    (targetSize : Option Int) (opts : Options) :
    ∀ (inputs : List String) (st : Store),
      (batchOptimizeGo env outputDir targetSize opts inputs st).1 =
        inputs.map (perFileRecord env outputDir targetSize opts) := by
  intro inputs
  induction inputs with
  | nil => intro st; rfl
  | cons p rest ih =>
    intro st
    simp only [batchOptimizeGo, List.map_cons, perFileRecord]
    rcases hopt : optimizeImage (env p).enc p (env p).size targetSize opts with
      e | o
    · simp [hopt, ih]
    · simp [hopt, ih]

/-- Processing a list of inputs whose output paths all avoid a given path
leaves the store unchanged at that path. -/
lemma batchOptimizeGo_store_untouched (env : String → FileModel)
    (outputDir : String) (targetSize : Option Int) (opts : Options)
    (p : String) :
    ∀ (inputs : List String) (st : Store),
      (∀ k ∈ inputs, pathJoin outputDir (basename k) ≠ p) →
      (batchOptimizeGo env outputDir targetSize opts inputs st).2 p = st p := by
  intro inputs
  induction inputs with
  | nil => intro st _; rfl
  | cons i rest ih =>
    intro st hk
    simp only [batchOptimizeGo]
    rcases hopt : optimizeImage (env i).enc i (env i).size targetSize opts with
      e | o
    · exact ih st (fun k hkr => hk k (List.mem_cons_of_mem _ hkr))
    · have hst : storeWrite st (pathJoin outputDir (basename i)) i o.output p =
          st p := by
        unfold storeWrite
        rw [if_neg]
        intro hpe
        exact hk i (List.mem_cons_self i rest) hpe.symm
      rw [ih _ (fun k hkr => hk k (List.mem_cons_of_mem _ hkr)), hst]

/-- Splitting the batch loop across an append. -/
lemma batchOptimizeGo_store_append (env : String → FileModel)
    (outputDir : String) (targetSize : Option Int) (opts : Options) :
    ∀ (xs ys : List String) (st : Store),
      (batchOptimizeGo env outputDir targetSize opts (xs ++ ys) st).2 =
        (batchOptimizeGo env outputDir targetSize opts ys
          (batchOptimizeGo env outputDir targetSize opts xs st).2).2 := by
  intro xs
  induction xs with
  | nil => intro ys st; rfl
  | cons x rest ih =>
    intro ys st
    simp only [List.cons_append, batchOptimizeGo]
    rcases hopt : optimizeImage (env x).enc x (env x).size targetSize opts with
      e | o
    · exact ih ys _
    · exact ih ys _

/-- Joining distinct names to the same directory gives distinct paths. -/
lemma pathJoin_right_inj (d a b : String) (h : pathJoin d a = pathJoin d b) :
    a = b := by
  unfold pathJoin at h
  have hd : (d ++ "/" ++ a).data = (d ++ "/" ++ b).data := by rw [h]
  simp only [String.data_append] at hd
  have := List.append_cancel_left hd
  exact String.ext this

/-! ## Claim theorems -/

/-- C2: for every size-targeting request with
originalSize ≤ targetSize − safetyMargin, optimizeImage performs no encode,
copies the source bytes unchanged to the output path, and returns
success = true, iterations = 0, optimizedSize = originalSize, quality = 100,
savings = 0, underTarget = true. -/
theorem optimizeImage_short_circuit_copy (enc : Encoder) (inputPath : String)
    (originalSize : Nat) (t : Int) (opts : Options)
    (h : (originalSize : Int) ≤ t - opts.safetyMargin) :
    optimizeImage enc inputPath originalSize (some t) opts =
      Except.ok ⟨⟨true, originalSize, originalSize, 100, 0, 0, true⟩,
        OutputContent.original, [], []⟩ := by
  simp only [optimizeImage]
  rw [if_pos h]

theorem optimizeImage_short_circuit_copy_witness :
    ((1000 : Int) ≤ 40960 - defaultOptions.safetyMargin) ∧
    optimizeImage encBig "a.png" 1000 (some 40960) defaultOptions =
      Except.ok ⟨⟨true, 1000, 1000, 100, 0, 0, true⟩,
        OutputContent.original, [], []⟩ :=
  ⟨by decide,
    optimizeImage_short_circuit_copy encBig "a.png" 1000 40960 defaultOptions
      (by decide)⟩

/-- C6: for every request with no target size on a supported format,
optimizeImage invokes the encoder exactly once, at quality maxQuality with
the format-specific settings, and returns success = true, iterations = 1 and
underTarget = true unconditionally, with no size check on the encoded
output (the statement holds for every encoder, whatever size it yields). -/
theorem optimizeImage_quality_mode (enc : Encoder) (inputPath : String)
    (originalSize : Nat) (opts : Options) (fmt : Format)
    (hfmt : fmtOfExt (lowerString (extname inputPath)) = some fmt) :
    optimizeImage enc inputPath originalSize none opts =
      Except.ok ⟨⟨true, originalSize, enc (normalParams fmt opts.maxQuality),
        opts.maxQuality, 1,
        (originalSize : Int) - (enc (normalParams fmt opts.maxQuality) : Int),
        true⟩,
        OutputContent.encoded (normalParams fmt opts.maxQuality), [],
        [normalParams fmt opts.maxQuality]⟩ := by
  simp only [optimizeImage]
  rw [hfmt]

theorem optimizeImage_quality_mode_witness :
    (fmtOfExt (lowerString (extname "b.jpg")) = some Format.jpeg) ∧
    optimizeImage encBig "b.jpg" 500 none defaultOptions =
      Except.ok ⟨⟨true, 500, 100000, 95, 1, (500 : Int) - 100000, true⟩,
        OutputContent.encoded (normalParams Format.jpeg 95), [],
        [normalParams Format.jpeg 95]⟩ :=
  ⟨by decide,
    optimizeImage_quality_mode encBig "b.jpg" 500 defaultOptions Format.jpeg
      (by decide)⟩

lemma sizeSearchOutcome_binLog (enc : Encoder) (ext : String)
    (originalSize : Nat) (t : Int) (opts : Options) :
    (sizeSearchOutcome enc ext originalSize t opts).binLog =
      (sizeSearchState enc ext (t - opts.safetyMargin) opts).trace.map
        (fun q => normalParams (fallbackFmt ext) q) := rfl

lemma sizeSearchOutcome_iterations (enc : Encoder) (ext : String)
    (originalSize : Nat) (t : Int) (opts : Options) :
    (sizeSearchOutcome enc ext originalSize t opts).result.iterations =
      (sizeSearchState enc ext (t - opts.safetyMargin) opts).trace.length :=
  rfl

/-- C4: for every size-targeting request with minQuality ≤ maxQuality and
maxIterations ≥ 1, the binary-search phase performs at most maxIterations
encoder invocations regardless of the target size, and the returned
iterations field counts exactly the binary-search invocations (fallback and
re-encode passes land in the other log and are not counted). -/
theorem sizeMode_iteration_bound (enc : Encoder) (inputPath : String)
    (originalSize : Nat) (t : Int) (opts : Options) (o : OptOutcome)
    (hq : opts.minQuality ≤ opts.maxQuality) (hi : 1 ≤ opts.maxIterations)
    (h : optimizeImage enc inputPath originalSize (some t) opts =
      Except.ok o) :
    o.result.iterations = o.binLog.length ∧
    o.binLog.length ≤ opts.maxIterations := by
  simp only [optimizeImage] at h
  by_cases h1 : (originalSize : Int) ≤ t - opts.safetyMargin
  · rw [if_pos h1] at h
    simp only [Except.ok.injEq] at h
    subst h
    simp
  · rw [if_neg h1] at h
    by_cases h2 : fmtOfExt (lowerString (extname inputPath)) = none ∧
        opts.minQuality ≤ opts.maxQuality ∧ 0 < opts.maxIterations
    · rw [if_pos h2] at h
      exact absurd h (by simp)
    · rw [if_neg h2] at h
      simp only [Except.ok.injEq] at h
      subst h
      refine ⟨?_, ?_⟩
      · rw [sizeSearchOutcome_binLog, sizeSearchOutcome_iterations,
          List.length_map]
      · rw [sizeSearchOutcome_binLog, List.length_map]
        unfold sizeSearchState
        rcases hf : fmtOfExt (lowerString (extname inputPath)) with _ | fmt
        · simp [initSearch]
        · have := searchLoop_trace_len (fun q => enc (normalParams fmt q))
            (t - opts.safetyMargin) opts.maxIterations
            (initSearch opts.minQuality opts.maxQuality)
          simpa [initSearch] using this

theorem sizeMode_iteration_bound_witness :
    ((10 : Int) ≤ 95 ∧ 1 ≤ 20) ∧
    ((optimizeImage encBig "big.jpg" 500000 (some 40960) optsDrift).map
        (fun o => (o.result.iterations, o.binLog.length))) =
      Except.ok (6, 6) := by
  refine ⟨by decide, ?_⟩
  have h : optimizeImage encBig "big.jpg" 500000 (some 40960) optsDrift =
      Except.ok (sizeSearchOutcome encBig ".jpg" 500000 40960 optsDrift) :=
    rfl
  have hb := sizeMode_iteration_bound encBig "big.jpg" 500000 40960 optsDrift
    (sizeSearchOutcome encBig ".jpg" 500000 40960 optsDrift)
    (by decide) (by decide) h
  rw [h]
  have hlen : (sizeSearchOutcome encBig ".jpg" 500000 40960
      optsDrift).binLog.length = 6 := by decide
  simp only [Except.map]
  rw [hb.1, hlen]

/-- C3 counterexample: with the constant encoder (non-decreasing also across
the whole quality interval, as the chain conjunct certifies) and an iteration
budget of 1, quality 95 satisfies the target yet the recorded bestQuality is
the single midpoint sample 52, not the maximum satisfying quality of the
interval [10, 95]. -/
theorem searchLoop_best_not_interval_max :
    ((List.range 86).all
      (fun k => Nat.ble (encConst (10 + (k : Int))) (encConst (10 + k + 1)))
      = true) ∧
    ((encConst 95 : Int) ≤ 48976) ∧
    (searchLoop encConst 48976 1 (initSearch 10 95)).bestQuality = 52 ∧
    ¬ ((52 : Int) = 95) := by decide

/-- C3 (amended): whenever some sampled quality of the binary-search phase
satisfies the adjusted target, the recorded bestQuality is the maximum
satisfying quality among those actually sampled; and under a size-vs-quality
monotone encoder, when the phase ends with the interval exhausted
(low > high, rather than being cut off by the iteration cap), it is the
maximum satisfying quality of the whole interval [minQuality, maxQuality]. -/
theorem searchLoop_best_is_max (encQ : Int → Nat) (adjT : Int) (fuel : Nat)
    (minQ maxQ : Int) (s : SearchState)
    (hq : minQ ≤ maxQ)
    (hs : searchLoop encQ adjT fuel (initSearch minQ maxQ) = s) :
    (∀ q ∈ s.trace, (encQ q : Int) ≤ adjT →
      (s.bestSize ≠ none ∧ q ≤ s.bestQuality)) ∧
    (s.bestSize ≠ none →
      s.bestQuality ∈ s.trace ∧ (encQ s.bestQuality : Int) ≤ adjT) ∧
    ((∀ a b : Int, a ≤ b → encQ a ≤ encQ b) → s.high < s.low →
      s.bestSize ≠ none →
      ((encQ s.bestQuality : Int) ≤ adjT ∧ minQ ≤ s.bestQuality ∧
       s.bestQuality ≤ maxQ ∧
       ∀ q : Int, s.bestQuality < q → q ≤ maxQ → adjT < (encQ q : Int))) := by
  subst hs
  obtain ⟨h1, h2, h3, h4, h5, h6⟩ :=
    searchLoop_inv encQ adjT minQ maxQ fuel (initSearch minQ maxQ)
      (initSearch_inv encQ adjT minQ maxQ (by omega))
  refine ⟨?_, ?_, ?_⟩
  · intro q hqt hsat
    rcases hbs : (searchLoop encQ adjT fuel (initSearch minQ maxQ)).bestSize
      with _ | b
    · have := h5 hbs q hqt
      omega
    · exact ⟨by simp [hbs], (h6 b hbs).2.2.2.2 q hqt hsat⟩
  · intro hne
    rcases hbs : (searchLoop encQ adjT fuel (initSearch minQ maxQ)).bestSize
      with _ | b
    · exact absurd hbs hne
    · exact ⟨(h6 b hbs).2.2.1, (h6 b hbs).2.1⟩
  · intro hmono hexit hne
    rcases hbs : (searchLoop encQ adjT fuel (initSearch minQ maxQ)).bestSize
      with _ | b
    · exact absurd hbs hne
    · obtain ⟨hb1, hb2, hb3, hb4, hb5⟩ := h6 b hbs
      have hh := searchLoop_high_inv encQ adjT maxQ hmono fuel
        (initSearch minQ maxQ) (initSearch_high_inv encQ adjT minQ maxQ)
      refine ⟨hb2, (h4 _ hb3).1, (h4 _ hb3).2, ?_⟩
      intro q hq1 hq2
      exact hh q (by omega) hq2

theorem searchLoop_best_is_max_witness :
    ((10 : Int) ≤ 95) ∧ ((encMono 50 : Int) ≤ 50) ∧
    ((50 : Int) < (encMono 51 : Int)) := by
  refine ⟨by decide, ?_, ?_⟩
  all_goals
    have h := searchLoop_best_is_max encMono 50 20 10 95 _ (by decide) rfl
    have h3 := h.2.2 (fun a b hab => Int.toNat_le_toNat hab) (by decide)
      (by decide)
    have hbq : (searchLoop encMono 50 20 (initSearch 10 95)).bestQuality =
      50 := by decide
  · have h31 := h3.1
    rw [hbq] at h31
    exact h31
  · have h34 := h3.2.2.2 51
    rw [hbq] at h34
    exact h34 (by decide) (by decide)

/-- C5: whenever the aggressive-fallback phase runs (the size on disk is
still over the unmargined target), the attempted qualities start at
max(1, minQuality − 5), each later attempt is exactly 2 lower than the one
before (hence strictly decreasing), the number of attempts is bounded (the
loop terminates), and the phase stops as soon as an attempt reaches the
target or the next quality would be below 1: every non-final attempt was
over target, and the final one either met the target or had no room left to
decrement. -/
theorem aggressive_fallback_schedule (enc : Encoder) (fmt : Format)
    (t minQ : Int) (cur : Nat) (hrun : t < (cur : Int)) :
    (aggressiveLoop enc fmt t (max 1 (minQ - 5)) cur).trace.head? =
      some (max 1 (minQ - 5)) ∧
    List.Chain' (fun a b => b = a - 2)
      (aggressiveLoop enc fmt t (max 1 (minQ - 5)) cur).trace ∧
    (aggressiveLoop enc fmt t (max 1 (minQ - 5)) cur).trace.length ≤
      (max 1 (minQ - 5)).toNat / 2 + 1 ∧
    (∀ a ∈ (aggressiveLoop enc fmt t (max 1 (minQ - 5)) cur).trace, 1 ≤ a) ∧
    (∀ a ∈ (aggressiveLoop enc fmt t (max 1 (minQ - 5)) cur).trace.dropLast,
      t < (enc (aggressiveParams fmt a) : Int)) ∧
    (∀ l, (aggressiveLoop enc fmt t (max 1 (minQ - 5)) cur).trace.getLast? =
        some l →
      ((enc (aggressiveParams fmt l) : Int) ≤ t ∨ l - 2 < 1)) :=
  aggressiveLoop_spec enc fmt t (max 1 (minQ - 5)) cur (le_max_left _ _) hrun

theorem aggressive_fallback_schedule_witness :
    ((50000 : Int) < ((60000 : Nat) : Int)) ∧
    (aggressiveLoop encDrift Format.jpeg 50000 (max 1 (10 - 5))
      60000).trace.head? = some (max 1 (10 - 5)) :=
  ⟨by decide,
    (aggressive_fallback_schedule encDrift Format.jpeg 50000 10 60000
      (by decide)).1⟩

/-- C1 (violated consistency): in this size-targeting run no binary-search
sample fits, the fallback and the aggressive phase produce the final bytes
with the aggressive JPEG settings at quality 5, yet the returned record
reports quality 95: the bestQuality sentinel (initialized to maxQuality and
never cleared, so the reported value is bestQuality-or-quality with the
fallback branch unreachable), not the parameter that produced the bytes at
the output path. -/
theorem optimizeImage_quality_drift :
    (Except.toOption
        (optimizeImage encDrift "photo.jpg" 100000 (some 50000) optsDrift)).map
        (fun o => (o.result.quality, o.result.success, o.output)) =
      some (95, true,
        OutputContent.encoded (aggressiveParams Format.jpeg 5)) ∧
    (aggressiveParams Format.jpeg 5).quality = 5 ∧ ¬ ((95 : Int) = 5) := by
  refine ⟨by decide, rfl, by decide⟩

/-- C8 counterexample: a non-PNG/JPEG input that is already under the
adjusted target is copied and reported successful in size-targeting mode:
optimizeImage does not fail at all, so no fail-fast format validation
precedes the short-circuit processing of the file. -/
theorem unsupported_format_copied_counterexample :
    optimizeImage encBig "banner.gif" 1000 (some 100000) defaultOptions =
      Except.ok ⟨⟨true, 1000, 1000, 100, 0, 0, true⟩,
        OutputContent.original, [], []⟩ ∧
    fmtOfExt (lowerString (extname "banner.gif")) = none :=
  ⟨rfl, rfl⟩

/-- C8 (amended): for an input whose extension is not PNG/JPEG,
optimizeImage fails with the unsupported-format error before any encoder
invocation (the outcome is the same for every encoder) whenever an encode
would be reached: always in quality-only mode, and in size-targeting mode
whenever the file is not short-circuit copied and the binary search would
run its first pass; when originalSize ≤ targetSize − safetyMargin the file
is instead copied and reported successful with no format check. -/
theorem unsupported_format_fails_before_encode (enc : Encoder)
    (inputPath : String) (originalSize : Nat) (targetSize : Option Int)
    (opts : Options)
    (hfmt : fmtOfExt (lowerString (extname inputPath)) = none)
    (hrun : targetSize = none ∨ ∃ t, targetSize = some t ∧
      t - opts.safetyMargin < (originalSize : Int) ∧
      opts.minQuality ≤ opts.maxQuality ∧ 0 < opts.maxIterations) :
    optimizeImage enc inputPath originalSize targetSize opts =
      Except.error
        (OptError.unsupported inputPath (lowerString (extname inputPath))) := by
  rcases hrun with hq | ⟨t, ht, h1, h2, h3⟩
  · subst hq
    simp only [optimizeImage]
    rw [hfmt]
  · subst ht
    simp only [optimizeImage]
    rw [if_neg (by omega), if_pos ⟨hfmt, h2, h3⟩]

theorem unsupported_format_fails_before_encode_witness :
    (fmtOfExt (lowerString (extname "x.gif")) = none) ∧
    optimizeImage encBig "x.gif" 999999 (some 100000) defaultOptions =
      Except.error
        (OptError.unsupported "x.gif" (lowerString (extname "x.gif"))) :=
  ⟨by decide,
    unsupported_format_fails_before_encode encBig "x.gif" 999999
      (some 100000) defaultOptions (by decide)
      (Or.inr ⟨100000, rfl, by decide, by decide, by decide⟩)⟩

/-- C9 (violated): in in-place mode the CLI passes dirname(inputs[0]) as the
batch output directory, so the record's output path equals the input path
itself: every optimization write (each search iteration and each fallback
encode) goes directly to the original file during the search, and the final
rename is a self-rename — not a distinct temporary path replaced only after
success. -/
theorem inPlace_writes_to_input_path :
    (batchOptimize envC9 ["/imgs/a.png"]
        (cliBatchOutputDir true "./optimized" ["/imgs/a.png"])
        (some 40960) optsDrift).map (fun r => (r.inputPath, r.outputPath)) =
      [("/imgs/a.png", "/imgs/a.png")] := rfl

/-- C7: batchOptimize returns one record per input, in the same order as the
inputs, with each record depending only on its own input; when optimizing
one file throws, its record is the error entry (filename, error message,
success = false), and — the records being an elementwise map over the
inputs — every other file is still processed and reported: a single file's
failure never aborts the batch. -/
theorem batch_per_file_isolation (env : String → FileModel)
    (inputs : List String) (outputDir : String) (targetSize : Option Int)
    (opts : Options) :
    (batchOptimize env inputs outputDir targetSize opts).length =
      inputs.length ∧
    batchOptimize env inputs outputDir targetSize opts =
      inputs.map (perFileRecord env outputDir targetSize opts) ∧
    (∀ p ∈ inputs, ∀ e,
      optimizeImage (env p).enc p (env p).size targetSize opts =
        Except.error e →
      perFileRecord env outputDir targetSize opts p =
        ⟨basename p, p, pathJoin outputDir (basename p), false,
          some e.message, none⟩) := by
  refine ⟨?_, ?_, ?_⟩
  · rw [batchOptimize,
      batchOptimizeGo_records env outputDir targetSize opts inputs emptyStore,
      List.length_map]
  · exact batchOptimizeGo_records env outputDir targetSize opts inputs
      emptyStore
  · intro p hp e he
    unfold perFileRecord
    rw [he]

theorem batch_per_file_isolation_witness :
    (batchOptimize envCollide ["/a/bad.gif", "/a/ok.jpg"] "/out"
      (some 100000) defaultOptions).length = 2 ∧
    perFileRecord envCollide "/out" (some 100000) defaultOptions
        "/a/bad.gif" =
      ⟨basename "/a/bad.gif", "/a/bad.gif",
        pathJoin "/out" (basename "/a/bad.gif"), false,
        some (OptError.unsupported "/a/bad.gif" ".gif").message, none⟩ := by
  have h := batch_per_file_isolation envCollide ["/a/bad.gif", "/a/ok.jpg"]
    "/out" (some 100000) defaultOptions
  refine ⟨h.1, ?_⟩
  exact h.2.2 "/a/bad.gif" (by simp)
    (OptError.unsupported "/a/bad.gif" ".gif") rfl

/-- C10: each input's output path is the output directory joined with the
basename of that input, so two inputs with equal basenames (even from
different directories) collide on one output path; and when the second of
them is the last input with that basename and its optimization succeeds, the
output directory finally holds its bytes at that path — the later file's
output overwrote the earlier file's. -/
theorem batch_outputPath_collision (env : String → FileModel)
    (inputs : List String) (outputDir : String) (targetSize : Option Int)
    (opts : Options) :
    ((batchOptimize env inputs outputDir targetSize opts).map
        (fun r => r.outputPath) =
      inputs.map (fun p => pathJoin outputDir (basename p))) ∧
    (∀ pre i rest, inputs = pre ++ i :: rest →
      (∀ k ∈ rest, basename k ≠ basename i) →
      ∀ o, optimizeImage (env i).enc i (env i).size targetSize opts =
          Except.ok o →
      batchFinalStore env inputs outputDir targetSize opts
        (pathJoin outputDir (basename i)) = some (i, o.output)) := by
  constructor
  · rw [batchOptimize,
      batchOptimizeGo_records env outputDir targetSize opts inputs emptyStore,
      List.map_map]
    apply List.map_congr_left
    intro p hp
    simp only [Function.comp, perFileRecord]
    rcases hopt : optimizeImage (env p).enc p (env p).size targetSize opts
      with e | o
    · simp [hopt]
    · simp [hopt]
  · intro pre i rest hsplit hrest o ho
    subst hsplit
    unfold batchFinalStore
    rw [batchOptimizeGo_store_append]
    simp only [batchOptimizeGo]
    rw [ho]
    have huntouched := batchOptimizeGo_store_untouched env outputDir
      targetSize opts (pathJoin outputDir (basename i)) rest
      (storeWrite
        (batchOptimizeGo env outputDir targetSize opts pre emptyStore).2
        (pathJoin outputDir (basename i)) i o.output)
      (fun k hk hkeq => hrest k hk (pathJoin_right_inj _ _ _ hkeq))
    rw [huntouched]
    unfold storeWrite
    rw [if_pos rfl]

theorem batch_outputPath_collision_witness :
    (pathJoin "/out" (basename "/a/x.png") =
      pathJoin "/out" (basename "/b/x.png")) ∧
    batchFinalStore envCollide ["/a/x.png", "/b/x.png"] "/out" (some 100000)
        defaultOptions (pathJoin "/out" (basename "/b/x.png")) =
      some ("/b/x.png", oCollide.output) := by
  refine ⟨by decide, ?_⟩
  exact (batch_outputPath_collision envCollide ["/a/x.png", "/b/x.png"]
      "/out" (some 100000) defaultOptions).2 ["/a/x.png"] "/b/x.png" [] rfl
      (by simp) oCollide rfl
